import Mathlib

/-!
Verification development for the wheat_head_counting dataset tooling.

The repository converts bounding-box annotations between three flat-file
formats: a wide CSV with semicolon-delimited box strings, per-image CSV
files, and COCO-style JSON, and reorganizes files on disk.

This file gives a shallow embedding of the relevant Python code:

* `Reorg.parse_boxes_string` — `scripts/reorganize_dataset.py`, `parse_boxes_string`
* `GenCoco.parse_boxes_string` — `data/origin/generate_coco_annotations.py`,
  `parse_boxes_string`
* `Reorg.create_csv_rows` — `scripts/reorganize_dataset.py`, `create_csv_annotation`
* `Coco.parse_csv_boxes` — `scripts/convert_to_coco.py`, `_parse_csv_boxes`
* `Coco.collectGo` / `Coco.collectSplit` — `scripts/convert_to_coco.py`,
  `_collect_annotations_for_split`
* `GenCoco.create_coco_annotation` — `data/origin/generate_coco_annotations.py`
* `Reorg.runReorg` — `scripts/reorganize_dataset.py`, `main`

Numbers parsed by Python's `float` are modelled as exact rationals (ℚ); this
is faithful for all values exercised by the theorems below (small integers
and short decimals, which binary floats represent exactly).  Numbers parsed
by Python's `int` are modelled as ℤ.  Strings are processed as their
underlying character lists so that every definition is executable by plain
structural recursion.
-/

/-- Model of Python's `str.split(sep)` for a one-character separator:
splits on every occurrence of the separator, keeping empty segments.
`"".split(';') == ['']`, matching `splitOnChar ';' [] = [[]]`. -/
def splitOnChar (sep : Char) : List Char → List (List Char)
  | [] => [[]]
  | a :: rest =>
    let r := splitOnChar sep rest
    if a = sep then [] :: r
    else
      match r with
      | [] => [[a]]
      | g :: gs => (a :: g) :: gs

/-- Helper for `splitWs`: `cur` is the current (reversed) in-progress token. -/
def splitWsAux (cur : List Char) : List Char → List (List Char)
  | [] => if cur = [] then [] else [cur.reverse]
  | a :: rest =>
    if a.isWhitespace then
      if cur = [] then splitWsAux [] rest
      else cur.reverse :: splitWsAux [] rest
    else splitWsAux (a :: cur) rest

/-- Model of Python's no-argument `str.split()`: splits on runs of
whitespace and never returns empty tokens. -/
def splitWs (l : List Char) : List (List Char) := splitWsAux [] l

/-- Model of Python's `str.strip()`: remove leading and trailing whitespace. -/
def trimChars (l : List Char) : List Char :=
  ((l.dropWhile Char.isWhitespace).reverse.dropWhile Char.isWhitespace).reverse

/-- Numeric value of a list of decimal digit characters. -/
def digitsToNat (l : List Char) : Nat :=
  l.foldl (fun n c => n * 10 + (c.toNat - ('0').toNat)) 0

/-- The digits of a Python integer literal: nonempty and all decimal digits.
Underscore digit grouping and non-ASCII digits are not modelled. -/
def digitsPart (l : List Char) : Option Nat :=
  if l ≠ [] ∧ l.all Char.isDigit then some (digitsToNat l) else none

/-- Model of Python's `int(token)` on a whitespace-free token: an optional
sign followed by a nonempty digit string. -/
def parseIntTok (t : List Char) : Option Int :=
  match t with
  | [] => none
  | c :: rest =>
    if c = '+' then (digitsPart rest).map (fun n : Nat => (n : Int))
    else if c = '-' then (digitsPart rest).map (fun n : Nat => -(n : Int))
    else (digitsPart t).map (fun n : Nat => (n : Int))

/-- Exact value of a decimal mantissa `ds . fs`. -/
def mantissa (ds fs : List Char) : ℚ :=
  ((digitsToNat ds : ℚ) * 10 ^ fs.length + (digitsToNat fs : ℚ)) / 10 ^ fs.length

/-- Scale a mantissa by a decimal exponent. -/
def applyExp (m : ℚ) (e : Int) : ℚ :=
  if 0 ≤ e then m * 10 ^ e.toNat else m / 10 ^ (-e).toNat

/-- Parse the exponent suffix of a Python float literal.  The empty suffix
yields exponent 0; otherwise `e`/`E`, an optional sign, and digits. -/
def parseExpPart : List Char → Option Int
  | [] => some 0
  | c :: rest =>
    if c = 'e' ∨ c = 'E' then
      match rest with
      | '+' :: ds => (digitsPart ds).map (fun n : Nat => (n : Int))
      | '-' :: ds => (digitsPart ds).map (fun n : Nat => -(n : Int))
      | ds => (digitsPart ds).map (fun n : Nat => (n : Int))
    else none

/-- Magnitude of a Python float literal: `digits [. digits] [exp]` with at
least one digit in the mantissa. -/
def parseFloatMag (t : List Char) : Option ℚ :=
  let ds := t.takeWhile Char.isDigit
  let rest1 := t.dropWhile Char.isDigit
  match rest1 with
  | '.' :: rest2 =>
    let fs := rest2.takeWhile Char.isDigit
    let rest3 := rest2.dropWhile Char.isDigit
    if ds = [] ∧ fs = [] then none
    else (parseExpPart rest3).map (fun e => applyExp (mantissa ds fs) e)
  | rest =>
    if ds = [] then none
    else (parseExpPart rest).map (fun e => applyExp ((digitsToNat ds : ℚ)) e)

/-- Model of Python's `float(token)` on a whitespace-free token, as an exact
rational.  The special spellings `inf` and `nan` are not modelled. -/
def parseFloatTok (t : List Char) : Option ℚ :=
  match t with
  | [] => none
  | c :: rest =>
    if c = '+' then parseFloatMag rest
    else if c = '-' then (parseFloatMag rest).map (fun q => -q)
    else parseFloatMag t

/-- Map a fallible function over a list, failing if any element fails —
the behaviour of a Python list comprehension whose body may raise. -/
def mapOpt (f : α → Option β) : List α → Option (List β)
  | [] => some []
  | a :: l =>
    match f a with
    | none => none
    | some b => (mapOpt f l).map (fun bs => b :: bs)

namespace Reorg

/-- The loop body of `parse_boxes_string` in `scripts/reorganize_dataset.py`
for one semicolon-separated segment: skip blank segments, parse every
whitespace-separated token with `float`, and if there are exactly 4
coordinates `x1 y1 x2 y2` produce `(x, y, width, height) =
(x1, y1, x2-x1, y2-y1)`.  Any parse failure or token-count mismatch drops
the segment. -/
def parseSegmentF (seg : List Char) : Option (ℚ × ℚ × ℚ × ℚ) :=
  let t := trimChars seg
  if t = [] then none
  else
    match mapOpt parseFloatTok (splitWs t) with
    | some [x1, y1, x2, y2] => some (x1, y1, x2 - x1, y2 - y1)
    | _ => none

/-- One row produced by `parse_boxes_string` in
`scripts/reorganize_dataset.py`: the dict
`{'item': item_id, 'x': x, 'y': y, 'width': width, 'height': height,
'label': 1}`. -/
structure Box where
  item : Nat
  x : ℚ
  y : ℚ
  width : ℚ
  height : ℚ
  label : Nat
deriving Repr, DecidableEq

/-- `parse_boxes_string` from `scripts/reorganize_dataset.py`.  `none`
models passing Python `None`.  `item_id` enumerates ALL semicolon-separated
segments (including blank or malformed ones), exactly as
`for item_id, box_str in enumerate(box_strings)` does. -/
def parse_boxes_string (boxes_string : Option String) : List Box :=
  match boxes_string with
  | none => []
  | some s =>
    if s = "" then []
    else
      (splitOnChar ';' s.data).enum.filterMap fun p =>
        (parseSegmentF p.2).map fun v =>
          { item := p.1, x := v.1, y := v.2.1, width := v.2.2.1,
            height := v.2.2.2, label := 1 }

end Reorg

namespace GenCoco

/-- The loop body of `parse_boxes_string` in
`data/origin/generate_coco_annotations.py` for one segment: identical to
the reorganizer's, except tokens are parsed with `int`. -/
def parseSegmentI (seg : List Char) : Option (ℤ × ℤ × ℤ × ℤ) :=
  let t := trimChars seg
  if t = [] then none
  else
    match mapOpt parseIntTok (splitWs t) with
    | some [x1, y1, x2, y2] => some (x1, y1, x2 - x1, y2 - y1)
    | _ => none

/-- One record produced by `parse_boxes_string` in
`data/origin/generate_coco_annotations.py`: the dict
`{'bbox': [x1, y1, x2-x1, y2-y1], 'area': (x2-x1)*(y2-y1)}`. -/
structure Box where
  bbox : List ℤ
  area : ℤ
deriving Repr, DecidableEq

/-- Box record built from one accepted segment `(x, y, w, h)`. -/
def boxOfSeg (v : ℤ × ℤ × ℤ × ℤ) : Box :=
  { bbox := [v.1, v.2.1, v.2.2.1, v.2.2.2], area := v.2.2.1 * v.2.2.2 }

/-- `parse_boxes_string` from `data/origin/generate_coco_annotations.py`. -/
def parse_boxes_string (boxes_string : Option String) : List Box :=
  match boxes_string with
  | none => []
  | some s =>
    if s = "" then []
    else (splitOnChar ';' s.data).filterMap fun seg =>
      (parseSegmentI seg).map boxOfSeg

end GenCoco

/-- Strict lexicographic order on character lists by code point — how
Python compares strings. -/
def strLtb : List Char → List Char → Bool
  | [], [] => false
  | [], _ :: _ => true
  | _ :: _, [] => false
  | a :: as, b :: bs =>
    if a.toNat < b.toNat then true
    else if b.toNat < a.toNat then false
    else strLtb as bs

/-- Strict lexicographic order on strings, as a proposition. -/
def strLt (a b : String) : Prop := strLtb a.data b.data = true

/-- Non-strict lexicographic order on strings. -/
def strLe (a b : String) : Prop := strLtb a.data b.data = true ∨ a = b

instance (a b : String) : Decidable (strLt a b) := by
  unfold strLt; infer_instance

instance (a b : String) : Decidable (strLe a b) := by
  unfold strLe; infer_instance

instance : IsTotal String strLe := by
  constructor
  have key : ∀ as bs : List Char, strLtb as bs = true ∨ strLtb bs as = true ∨ as = bs := by
    intro as
    induction as with
    | nil =>
      intro bs
      cases bs with
      | nil => right; right; rfl
      | cons b bs => left; rfl
    | cons a as ih =>
      intro bs
      cases bs with
      | nil => right; left; rfl
      | cons b bs =>
        rcases Nat.lt_trichotomy a.toNat b.toNat with h | h | h
        · left; simp [strLtb, h]
        · have hab : a = b := Char.eq_of_val_eq (UInt32.ext h)
          subst hab
          rcases ih bs with h2 | h2 | h2
          · left; simp [strLtb, h2]
          · right; left; simp [strLtb, h2]
          · right; right; rw [h2]
        · right; left; simp [strLtb, h]
  intro a b
  rcases key a.data b.data with h | h | h
  · exact Or.inl (Or.inl h)
  · exact Or.inr (Or.inl h)
  · refine Or.inl (Or.inr ?hyp)
    cases a; cases b; subst h; rfl

instance : IsTrans String strLe := by
  constructor
  have key : ∀ as bs cs : List Char,
      strLtb as bs = true → strLtb bs cs = true → strLtb as cs = true := by
    intro as
    induction as with
    | nil =>
      intro bs cs h1 h2
      cases bs with
      | nil => simp [strLtb] at h1
      | cons b bs =>
        cases cs with
        | nil => simp [strLtb] at h2
        | cons c cs => rfl
    | cons a as ih =>
      intro bs cs h1 h2
      cases bs with
      | nil => simp [strLtb] at h1
      | cons b bs =>
        cases cs with
        | nil => simp [strLtb] at h2
        | cons c cs =>
          by_cases hab : a.toNat < b.toNat
          · by_cases hbc : b.toNat < c.toNat
            · simp [strLtb, Nat.lt_trans hab hbc]
            · simp only [strLtb, hbc, if_false, if_true] at h2
              by_cases hcb : c.toNat < b.toNat
              · simp [hcb] at h2
              · have : b.toNat = c.toNat := by omega
                simp [strLtb, this ▸ hab]
          · simp only [strLtb, hab, if_false, if_true] at h1
            by_cases hba : b.toNat < a.toNat
            · simp [hba] at h1
            · have hab2 : a.toNat = b.toNat := by omega
              rw [if_neg hba] at h1
              by_cases hbc : b.toNat < c.toNat
              · simp [strLtb, hab2 ▸ hbc]
              · simp only [strLtb, hbc, if_false, if_true] at h2
                by_cases hcb : c.toNat < b.toNat
                · simp [hcb] at h2
                · have hbc2 : b.toNat = c.toNat := by omega
                  rw [if_neg hcb] at h2
                  have hac : ¬ a.toNat < c.toNat := by omega
                  have hca : ¬ c.toNat < a.toNat := by omega
                  simp [strLtb, hac, hca]
                  exact ih bs cs h1 h2
  intro a b c h1 h2
  rcases h1 with h1 | h1
  · rcases h2 with h2 | h2
    · exact Or.inl (key _ _ _ h1 h2)
    · subst h2; exact Or.inl h1
  · subst h1; exact h2

/-- Model of Python's `sorted(set(xs))`: the distinct elements in
lexicographic order. -/
def sortDedup (l : List String) : List String :=
  l.dedup.insertionSort strLe

/-- Model of Python's `pathlib.PurePath.stem` on a plain file name: the
name with its final dotted suffix removed, where a leading dot or a
trailing dot does not count as a suffix separator. -/
def pathStem (name : String) : String :=
  let l := name.data
  let i := l.length - 1 - (l.reverse.indexOf '.')
  if '.' ∈ l ∧ 0 < i ∧ i < l.length - 1 then ⟨l.take i⟩ else name

/-- The lines `main` in `scripts/reorganize_dataset.py` writes to one
`sets/*.txt` file: `Path(img_name).stem` for each name in
`sorted(<set of names>)`. -/
def setsLines (names : List String) : List String :=
  (sortDedup names).map pathStem

/-- Decimal digits of the fractional part `rem / den` (`rem < den`), most
significant first — the exact decimal expansion, which terminates for the
dyadic rationals that binary floats are.  `fuel` bounds the expansion. -/
def fracDigits : Nat → Nat → Nat → String
  | 0, _, _ => ""
  | _ + 1, 0, _ => ""
  | fuel + 1, rem, den => Nat.repr (rem * 10 / den) ++ fracDigits fuel (rem * 10 % den) den

/-- Model of Python's `str()` on a float value, identified with the exact
rational it denotes: a sign, the integer part, and the terminating decimal
expansion of the fractional part (integral values print as `n.0`). -/
def pyFloatRepr (q : ℚ) : String :=
  let sign := if q.num < 0 then "-" else ""
  let n := q.num.natAbs
  if q.den = 1 then sign ++ Nat.repr n ++ ".0"
  else sign ++ Nat.repr (n / q.den) ++ "." ++ fracDigits 64 (n % q.den) q.den

namespace Reorg

/-- The rows `create_csv_annotation` in `scripts/reorganize_dataset.py`
writes to `csv/<stem>.csv`: the header `#item,x,y,width,height,label`
followed by one row per box, numeric fields rendered the way Python's
`csv.writer` renders an `int` and a `float`. -/
def create_csv_rows (boxes : List Box) : List (List String) :=
  ["#item", "x", "y", "width", "height", "label"] ::
    boxes.map fun b =>
      [Nat.repr b.item, pyFloatRepr b.x, pyFloatRepr b.y,
       pyFloatRepr b.width, pyFloatRepr b.height, Nat.repr b.label]

end Reorg

/-- Last-binding-wins lookup in an association list — how a Python dict
built from a sequence of key/value pairs resolves a key. -/
def dictGet (l : List (String × String)) (k : String) : Option String :=
  l.foldl (fun acc p => if p.1 = k then some p.2 else acc) none

/-- Python dict insertion: an existing key keeps its position but takes the
new value; a new key is appended. -/
def dictInsert (k v : String) (m : List (String × String)) : List (String × String) :=
  if m.any (fun p => p.1 = k) then m.map (fun p => if p.1 = k then (k, v) else p)
  else m ++ [(k, v)]

/-- Python `{**a, **b}`: insert every binding of `b` into `a`. -/
def dictMerge (a b : List (String × String)) : List (String × String) :=
  b.foldl (fun m p => dictInsert p.1 p.2 m) a

/-- Lower-case an ASCII string, as `_parse_csv_boxes` lower-cases CSV
header names. -/
def lowerStr (s : String) : String := ⟨s.data.map Char.toLower⟩

namespace Coco

/-- The `get` helper inside `_parse_csv_boxes` in
`scripts/convert_to_coco.py`: try each key in order; a key that is absent,
maps to `None` or the empty string, or fails `float` parsing is passed
over. -/
def rowGet (row : List (String × String)) : List String → Option ℚ
  | [] => none
  | k :: ks =>
    match dictGet row k with
    | none => rowGet row ks
    | some v =>
      if v = "" then rowGet row ks
      else
        match parseFloatTok v.data with
        | some q => some q
        | none => rowGet row ks

/-- One COCO-style box produced by `_parse_csv_boxes`. -/
structure CsvBox where
  bbox : List ℚ
  area : ℚ
  category_id : Int
deriving Repr, DecidableEq

/-- The `category_id` of a row: `int(label)` (truncation toward zero) when
a label parses, else the default 1. -/
def catOf (row : List (String × String)) : Int :=
  match rowGet row ["label", "class", "category_id"] with
  | some q => q.num.tdiv (q.den : Int)
  | none => 1

/-- The per-row logic of `_parse_csv_boxes` in `scripts/convert_to_coco.py`:
rows without `x` and `y` are skipped; a radius field takes priority and
yields a square box of side `2r` centred at `(x, y)`; otherwise width and
height are used directly; otherwise the row is skipped. -/
def parse_csv_row (row : List (String × String)) : Option CsvBox :=
  let x? := rowGet row ["x", "xc", "x_center"]
  let y? := rowGet row ["y", "yc", "y_center"]
  let r? := rowGet row ["r", "radius"]
  let w? := rowGet row ["w", "width", "dx"]
  let h? := rowGet row ["h", "height", "dy"]
  match x?, y? with
  | some x, some y =>
    match r? with
    | some r =>
      some { bbox := [x - r, y - r, 2 * r, 2 * r], area := (2 * r) * (2 * r),
             category_id := catOf row }
    | none =>
      match w?, h? with
      | some w, some h =>
        some { bbox := [x, y, w, h], area := w * h, category_id := catOf row }
      | _, _ => none
  | _, _ => none

/-- `_parse_csv_boxes` from `scripts/convert_to_coco.py`, over the rows of
a CSV file (`none` models a missing file, `some []` a file with no header).
Each data row is zipped with the lower-cased header, as `csv.DictReader`
plus the row-lowering comprehension do. -/
def parse_csv_boxes (file : Option (List (List String))) : List CsvBox :=
  match file with
  | none => []
  | some [] => []
  | some (header :: rows) =>
    let fields := header.map lowerStr
    rows.filterMap fun r => parse_csv_row (fields.zip r)

end Coco

namespace Coco

/-- One entry of the `images` list built by `_collect_annotations_for_split`. -/
structure CocoImage where
  id : Nat
  file_name : String
  width : Nat
  height : Nat
deriving Repr, DecidableEq

/-- One entry of the `annotations` list built by
`_collect_annotations_for_split`. -/
structure CocoAnn where
  id : Nat
  image_id : Nat
  category_id : Int
  bbox : List ℚ
  area : ℚ
  iscrowd : Nat
deriving Repr, DecidableEq

/-- The png/jpg/bmp fallback probe of `_collect_annotations_for_split`:
the first of `<stem>.png`, `<stem>.jpg`, `<stem>.bmp` that exists. -/
def resolveImage (ex : String → Bool) (st : String) : Option String :=
  if ex (st ++ ".png") then some (st ++ ".png")
  else if ex (st ++ ".jpg") then some (st ++ ".jpg")
  else if ex (st ++ ".bmp") then some (st ++ ".bmp")
  else none

/-- The inner annotation loop of `_collect_annotations_for_split`: one
annotation per parsed box, ids counting up from `annId`, all referencing
image `imgId`. -/
def mkAnns (imgId : Nat) : Nat → List CsvBox → List CocoAnn
  | _, [] => []
  | annId, b :: bs =>
    { id := annId, image_id := imgId, category_id := b.category_id,
      bbox := b.bbox, area := b.area, iscrowd := 0 } :: mkAnns imgId (annId + 1) bs

/-- The main loop of `_collect_annotations_for_split` over the sorted image
stems.  `ex` is file existence under `images/`, `size` the pixel size `PIL`
reports (with its 1024×1024 fallback folded in), `csvF` the contents of
`csv/<stem>.csv`, `cat` the category root's directory name.  A stem whose
image file resolves to none of the three extensions is skipped entirely;
otherwise the image record is appended, its CSV boxes become annotations,
and both counters advance. -/
def collectGo (ex : String → Bool) (size : String → Nat × Nat)
    (csvF : String → Option (List (List String))) (cat : String) :
    Nat → Nat → List String → List CocoImage × List CocoAnn
  | _, _, [] => ([], [])
  | imgId, annId, st :: rest =>
    match resolveImage ex st with
    | none => collectGo ex size csvF cat imgId annId rest
    | some fname =>
      let wh := size fname
      let boxes := parse_csv_boxes (csvF st)
      let r := collectGo ex size csvF cat (imgId + 1) (annId + boxes.length) rest
      ({ id := imgId, file_name := cat ++ "/images/" ++ fname,
         width := wh.1, height := wh.2 } :: r.1,
       mkAnns imgId annId boxes ++ r.2)

/-- `_collect_annotations_for_split` on a resolved, non-empty set of split
stems: iterate `sorted(image_stems)` with both id counters starting at 1.
(The glob fallback that supplies stems when the split file is missing or
empty happens before this point and only changes which stems come in.) -/
def collectSplit (stems : List String) (ex : String → Bool)
    (size : String → Nat × Nat) (csvF : String → Option (List (List String)))
    (cat : String) : List CocoImage × List CocoAnn :=
  collectGo ex size csvF cat 1 1 (sortDedup stems)

/-- `_read_split_list` from `scripts/convert_to_coco.py`: a missing file
yields no stems; otherwise the stripped, non-blank lines. -/
def readSplitList (file : Option (List String)) : List String :=
  ((file.getD []).map (fun l => (⟨trimChars l.data⟩ : String))).filter (fun l => l ≠ "")

end Coco

namespace GenCoco

/-- One entry of the `images` list of the single-image COCO document of
`create_coco_annotation` in `data/origin/generate_coco_annotations.py`
(static metadata fields omitted). -/
structure GImage where
  id : Int
  width : Nat
  height : Nat
  file_name : String
deriving Repr, DecidableEq

/-- One entry of the `annotations` list of the single-image COCO document. -/
structure GAnn where
  id : Int
  image_id : Int
  category_id : Int
  area : ℤ
  bbox : List ℤ
deriving Repr, DecidableEq

/-- The single-image COCO document assembled by `create_coco_annotation`
(the static `info`/`categories`/`licenses` parts omitted). -/
structure GDoc where
  images : List GImage
  annotations : List GAnn
deriving Repr, DecidableEq

/-- The annotation loop of `create_coco_annotation`: the `i`-th box gets id
`annotation_id + i` and references `image_id`. -/
def gAnns (imageId annBase : Int) : Nat → List Box → List GAnn
  | _, [] => []
  | i, b :: bs =>
    { id := annBase + i, image_id := imageId, category_id := 1,
      area := b.area, bbox := b.bbox } :: gAnns imageId annBase (i + 1) bs

/-- `create_coco_annotation` from `data/origin/generate_coco_annotations.py`:
a document with exactly one image (the given pre-minted `image_id`) and one
annotation per box. -/
def create_coco_annotation (image_name : String) (width height : Nat)
    (boxes : List Box) (image_id annotation_id : Int) : GDoc :=
  { images := [{ id := image_id, width := width, height := height,
                 file_name := image_name }],
    annotations := gAnns image_id annotation_id 0 boxes }

end GenCoco

namespace Reorg

/-- The parts of the source tree `main` in `scripts/reorganize_dataset.py`
reads: image files under `images/` and their sibling `<stem>.json` files,
each keyed by name (resp. stem) and carrying an abstract content tag. -/
structure WideEnv where
  srcImage : String → Option Nat
  srcJson : String → Option Nat

/-- The parts of the output tree `wheat_heads/` that `main` writes:
`images/`, `json/`, `csv/` and `sets/`, each a partial map from file key to
contents. -/
@[ext]
structure FS where
  destImages : String → Option Nat
  destJson : String → Option Nat
  csvFiles : String → Option (List (List String))
  setsFiles : String → Option (List String)

/-- First-some choice, the effect of `if not dest.exists(): copy(...)`. -/
def orSome : Option α → Option α → Option α
  | some a, _ => some a
  | none, b => b

/-- `shutil.copy2(source_image_path, dest_image_path)` guarded by
`if not dest_image_path.exists()`: write content `c` at `images/<name>`
unless the destination already exists. -/
def stepImage (c : Nat) (name : String) (s : FS) : FS :=
  if (s.destImages name).isSome then s
  else { s with destImages := fun n => if n = name then some c else s.destImages n }

/-- The guarded JSON copy: when a sibling `<stem>.json` exists in the
source, write it at `json/<stem>.json` unless the destination exists. -/
def stepJson (env : WideEnv) (st : String) (s : FS) : FS :=
  match env.srcJson st with
  | none => s
  | some j =>
    if (s.destJson st).isSome then s
    else { s with destJson := fun n => if n = st then some j else s.destJson n }

/-- The unconditional per-image CSV write at `csv/<stem>.csv`. -/
def stepCsv (rows : List (List String)) (st : String) (s : FS) : FS :=
  { s with csvFiles := fun n => if n = st then some rows else s.csvFiles n }

/-- The per-image loop body of `main`: skip when the source image is
missing; copy the image unless the destination exists; copy the sibling
JSON, if any, unless the destination exists; always (re)write the
per-image CSV. -/
def processItem (env : WideEnv) (s : FS) (it : String × String) : FS :=
  match env.srcImage it.1 with
  | none => s
  | some c =>
    stepCsv (create_csv_rows (parse_boxes_string (some it.2))) (pathStem it.1)
      (stepJson env (pathStem it.1) (stepImage c it.1 s))

/-- The five `sets/*.txt` files `main` writes, as an update of the `sets/`
directory map. -/
def updSets (tn vn ten : List String) (f : String → Option (List String)) :
    String → Option (List String) := fun n =>
  if n = "train" then some (setsLines tn)
  else if n = "val" then some (setsLines vn)
  else if n = "test" then some (setsLines ten)
  else if n = "all" then some (setsLines (tn ++ vn ++ ten))
  else if n = "train_val" then some (setsLines (tn ++ vn))
  else f n

/-- `main` from `scripts/reorganize_dataset.py`, over the three wide-table
dictionaries (already read by `read_csv_data`): write the five sets files,
merge the three dictionaries with later splits overriding, and run the
per-image loop over the merged items. -/
def runReorg (train val test : List (String × String)) (env : WideEnv) (s : FS) : FS :=
  let s0 : FS :=
    { s with
      setsFiles := updSets (train.map Prod.fst) (val.map Prod.fst)
        (test.map Prod.fst) s.setsFiles }
  (dictMerge (dictMerge train val) test).foldl (processItem env) s0

end Reorg

namespace Reorg

/-- The segment indices of a box string that survive parsing: position `i`
is listed exactly when segment `i` is non-blank and parses as 4 floats.
These are the `item` values `parse_boxes_string` emits. -/
def validSegIdxs (boxes_string : Option String) : List Nat :=
  match boxes_string with
  | none => []
  | some s =>
    if s = "" then []
    else
      (splitOnChar ';' s.data).enum.filterMap fun p =>
        if (parseSegmentF p.2).isSome then some p.1 else none

/-- What the per-image loop writes into `images/` at file `n`: the source
content of the earliest item named `n` whose source image exists (all such
writes carry the same content, so which one wins is immaterial). -/
def imgWrite (env : WideEnv) : List (String × String) → String → Option Nat
  | [], _ => none
  | it :: l, n =>
    orSome (if it.1 = n then env.srcImage n else none) (imgWrite env l n)

/-- What the per-image loop writes into `json/` at stem `n`. -/
def jsonWrite (env : WideEnv) : List (String × String) → String → Option Nat
  | [], _ => none
  | it :: l, n =>
    orSome (if (env.srcImage it.1).isSome ∧ pathStem it.1 = n then env.srcJson n else none)
      (jsonWrite env l n)

/-- What the per-image loop writes into `csv/` at stem `n`: the CSV rows of
the LAST item with that stem whose source image exists (the CSV write is
unconditional, so the last writer wins). -/
def csvWrite (env : WideEnv) : List (String × String) → String → Option (List (List String))
  | [], _ => none
  | it :: l, n =>
    orSome (csvWrite env l n)
      (if (env.srcImage it.1).isSome ∧ pathStem it.1 = n
       then some (create_csv_rows (parse_boxes_string (some it.2)))
       else none)

end Reorg

/-- The empty output tree. -/
def emptyFS : Reorg.FS :=
  { destImages := fun _ => none, destJson := fun _ => none,
    csvFiles := fun _ => none, setsFiles := fun _ => none }

/-- A source tree with no image and no JSON files. -/
def noSrcEnv : Reorg.WideEnv :=
  { srcImage := fun _ => none, srcJson := fun _ => none }

/-- Source tree for the round-trip scenario: exactly the image file
`a.png` (and no sibling JSON). -/
def rtEnv : Reorg.WideEnv :=
  { srcImage := fun n => if n = "a.png" then some 0 else none,
    srcJson := fun _ => none }

/-- Output tree of the Reorganizer run on the single wide-table row
`image_name=a.png, BoxesString="0 0 10 10"`. -/
def rtFS : Reorg.FS :=
  Reorg.runReorg [("a.png", "0 0 10 10")] [] [] rtEnv emptyFS

/-- COCO content for the `train` split produced by the converter over the
Reorganizer's output tree: stems from `sets/train.txt`, image lookup and
CSV lookup against the tree (image pixel size irrelevant here). -/
def rtOut : List Coco.CocoImage × List Coco.CocoAnn :=
  Coco.collectSplit (Coco.readSplitList (rtFS.setsFiles "train"))
    (fun n => (rtFS.destImages n).isSome) (fun _ => (1024, 1024))
    rtFS.csvFiles "wheat_heads"


/-! ## Helper lemmas -/

theorem applyExp_zero (m : ℚ) : applyExp m 0 = m := by
  simp [applyExp]

theorem digitsPart_eq_some {l : List Char} {m : Nat} (h : digitsPart l = some m) :
    l ≠ [] ∧ (∀ a ∈ l, Char.isDigit a = true) ∧ m = digitsToNat l := by
  unfold digitsPart at h
  split at h
  · rename_i hc
    exact ⟨hc.1, List.all_eq_true.mp hc.2, (Option.some.injEq _ _).mp h.symm⟩
  · exact absurd h (by simp)

theorem parseFloatMag_digits {l : List Char} {m : Nat} (h : digitsPart l = some m) :
    parseFloatMag l = some ((m : ℚ)) := by
  obtain ⟨hne, hall, hm⟩ := digitsPart_eq_some h
  have ht : l.takeWhile Char.isDigit = l := List.takeWhile_eq_self_iff.mpr hall
  have hd : l.dropWhile Char.isDigit = [] := List.dropWhile_eq_nil_iff.mpr hall
  have hstep : parseFloatMag l =
      (parseExpPart []).map (fun e => applyExp ((digitsToNat l : ℚ)) e) := by
    unfold parseFloatMag
    rw [ht, hd]
    simp [hne]
  rw [hstep]
  simp [parseExpPart, applyExp_zero, hm]

theorem parseFloatTok_of_parseIntTok {t : List Char} {n : Int}
    (h : parseIntTok t = some n) : parseFloatTok t = some ((n : ℚ)) := by
  cases t with
  | nil => simp [parseIntTok] at h
  | cons c rest =>
    by_cases hp : c = '+'
    · rw [parseIntTok, if_pos hp] at h
      cases e : digitsPart rest with
      | none => rw [e] at h; simp at h
      | some m =>
        rw [e] at h
        simp only [Option.map_some', Option.some.injEq] at h
        rw [parseFloatTok, if_pos hp, parseFloatMag_digits e, ← h]
        norm_cast
    · by_cases hq : c = '-'
      · rw [parseIntTok, if_neg hp, if_pos hq] at h
        cases e : digitsPart rest with
        | none => rw [e] at h; simp at h
        | some m =>
          rw [e] at h
          simp only [Option.map_some', Option.some.injEq] at h
          rw [parseFloatTok, if_neg hp, if_pos hq, parseFloatMag_digits e]
          rw [← h]
          push_cast
          rfl
      · rw [parseIntTok, if_neg hp, if_neg hq] at h
        cases e : digitsPart (c :: rest) with
        | none => rw [e] at h; simp at h
        | some m =>
          rw [e] at h
          simp only [Option.map_some', Option.some.injEq] at h
          rw [parseFloatTok, if_neg hp, if_neg hq, parseFloatMag_digits e, ← h]
          norm_cast

theorem mapOpt_float_of_int :
    ∀ {ts : List (List Char)} {vs : List Int}, mapOpt parseIntTok ts = some vs →
      mapOpt parseFloatTok ts = some (vs.map fun z => ((z : ℚ))) := by
  intro ts
  induction ts with
  | nil =>
    intro vs h
    simp only [mapOpt, Option.some.injEq] at h
    simp [mapOpt, ← h]
  | cons a l ih =>
    intro vs h
    rw [mapOpt] at h
    cases e1 : parseIntTok a with
    | none => rw [e1] at h; simp at h
    | some b =>
      rw [e1] at h
      cases e2 : mapOpt parseIntTok l with
      | none => rw [e2] at h; simp at h
      | some bs =>
        rw [e2] at h
        simp only [Option.map_some', Option.some.injEq] at h
        rw [mapOpt, parseFloatTok_of_parseIntTok e1, ih e2]
        simp [← h]

theorem segF_of_segI {seg : List Char} {x y w h : ℤ}
    (hs : GenCoco.parseSegmentI seg = some (x, y, w, h)) :
    Reorg.parseSegmentF seg = some (((x : ℚ)), ((y : ℚ)), ((w : ℚ)), ((h : ℚ))) := by
  unfold GenCoco.parseSegmentI at hs
  by_cases ht : trimChars seg = []
  · rw [if_pos ht] at hs; exact absurd hs (by simp)
  · rw [if_neg ht] at hs
    unfold Reorg.parseSegmentF
    rw [if_neg ht]
    cases e : mapOpt parseIntTok (splitWs (trimChars seg)) with
    | none => rw [e] at hs; simp at hs
    | some vs =>
      rw [e] at hs
      match vs, hs with
      | [a, b, c, d], hs =>
        simp only [Option.some.injEq, Prod.mk.injEq] at hs
        obtain ⟨hx, hy, hw, hh⟩ := hs
        rw [mapOpt_float_of_int e]
        simp only [List.map]
        subst hx; subst hy; subst hw; subst hh
        push_cast
        rfl

/-! ## Claims about the box-string parsers (C1, C5, C10) -/

/-- C1: for every box-string segment of exactly 4 whitespace-separated
numeric tokens `x1 y1 x2 y2` (each implementation reading tokens with its
own numeric parser: `float` in `reorganize_dataset.py`, `int` in
`generate_coco_annotations.py`), the parser emits one box record with
position `(x1, y1)`, size `(x2-x1, y2-y1)` and, in the implementation that
computes it, `area = (x2-x1)*(y2-y1)`; no coordinate-order or
negative-size validation rejects any such segment. -/
theorem C1_four_token_segment (seg : List Char) (t1 t2 t3 t4 : List Char)
    (hsplit : splitWs (trimChars seg) = [t1, t2, t3, t4]) :
    (∀ q1 q2 q3 q4 : ℚ, parseFloatTok t1 = some q1 → parseFloatTok t2 = some q2 →
      parseFloatTok t3 = some q3 → parseFloatTok t4 = some q4 →
      Reorg.parseSegmentF seg = some (q1, q2, q3 - q1, q4 - q2)) ∧
    (∀ n1 n2 n3 n4 : ℤ, parseIntTok t1 = some n1 → parseIntTok t2 = some n2 →
      parseIntTok t3 = some n3 → parseIntTok t4 = some n4 →
      (GenCoco.parseSegmentI seg).map GenCoco.boxOfSeg =
        some { bbox := [n1, n2, n3 - n1, n4 - n2],
               area := (n3 - n1) * (n4 - n2) }) := by
  have hne : trimChars seg ≠ [] := by
    intro hnil
    rw [hnil] at hsplit
    exact absurd hsplit (by simp [splitWs, splitWsAux])
  constructor
  · intro q1 q2 q3 q4 h1 h2 h3 h4
    unfold Reorg.parseSegmentF
    rw [if_neg hne, hsplit]
    simp [mapOpt, h1, h2, h3, h4]
  · intro n1 n2 n3 n4 h1 h2 h3 h4
    unfold GenCoco.parseSegmentI
    rw [if_neg hne, hsplit]
    simp [mapOpt, h1, h2, h3, h4, GenCoco.boxOfSeg]

/-- Witness for C1 at the concrete segment `"5 5 2 2"`, whose swapped
corners give negative width and height — accepted by both parsers with no
validation. -/
theorem C1_four_token_segment_witness :
    Reorg.parseSegmentF "5 5 2 2".data = some (5, 5, -3, -3) ∧
    (GenCoco.parseSegmentI "5 5 2 2".data).map GenCoco.boxOfSeg =
      some { bbox := [5, 5, -3, -3], area := (-3) * (-3) } := by
  have h := C1_four_token_segment "5 5 2 2".data ['5'] ['5'] ['2'] ['2'] (by decide)
  have h5 : parseFloatTok ['5'] = some (((5 : ℤ) : ℚ)) :=
    parseFloatTok_of_parseIntTok (by decide)
  have h2 : parseFloatTok ['2'] = some (((2 : ℤ) : ℚ)) :=
    parseFloatTok_of_parseIntTok (by decide)
  constructor
  · have hc := h.1 _ _ _ _ h5 h5 h2 h2
    rw [hc]
    norm_num
  · have hc := h.2 5 5 2 2 (by decide) (by decide) (by decide) (by decide)
    rw [hc]
    norm_num

/-- C5: the box-string parsers never fail: `None` and the empty string give
an empty box list in both implementations, and a malformed middle segment
is silently dropped while the segments around it are still parsed —
parsing `"10 10 50 40;bad;20 20 30 30"` yields exactly 2 box records. -/
theorem C5_parser_never_fails :
    Reorg.parse_boxes_string none = [] ∧
    Reorg.parse_boxes_string (some "") = [] ∧
    GenCoco.parse_boxes_string none = [] ∧
    GenCoco.parse_boxes_string (some "") = [] ∧
    (Reorg.parse_boxes_string (some "10 10 50 40;bad;20 20 30 30")).length = 2 ∧
    GenCoco.parse_boxes_string (some "10 10 50 40;bad;20 20 30 30") =
      [{ bbox := [10, 10, 40, 30], area := 1200 },
       { bbox := [20, 20, 10, 10], area := 100 }] := by
  refine ⟨rfl, rfl, rfl, rfl, ?len, ?vals⟩ <;> decide

/-- Counterexample to C10 as stated: the two implementations of the
box-string parser do not accept the same segments.  On `"0 0 1.5 3"` the
float-based parser of `reorganize_dataset.py` emits one box while the
int-based parser of `generate_coco_annotations.py` drops the segment. -/
theorem C10_counterexample :
    (Reorg.parse_boxes_string (some "0 0 1.5 3")).length = 1 ∧
    GenCoco.parse_boxes_string (some "0 0 1.5 3") = [] := by
  constructor <;> decide

/-- C10 (amended): every segment the int-based parser of
`generate_coco_annotations.py` accepts is also accepted by the float-based
parser of `reorganize_dataset.py`, with the same `x`, `y`, `width`,
`height` values (as exact rationals); the converse fails, so the two
implementations are related by a strict one-way refinement, not an
equivalence. -/
theorem C10_amended_int_refines_float (seg : List Char) (x y w h : ℤ)
    (hs : GenCoco.parseSegmentI seg = some (x, y, w, h)) :
    Reorg.parseSegmentF seg = some (((x : ℚ)), ((y : ℚ)), ((w : ℚ)), ((h : ℚ))) :=
  segF_of_segI hs

/-- Witness for the amended C10 at the segment `"0 0 10 10"`. -/
theorem C10_amended_witness :
    Reorg.parseSegmentF "0 0 10 10".data = some (0, 0, 10, 10) := by
  have h := C10_amended_int_refines_float "0 0 10 10".data 0 0 10 10 (by decide)
  rw [h]
  norm_num

/-! ## Claims about the per-image CSV rows (C3) -/

theorem map_item_filterMap (l : List (Nat × List Char)) :
    ((l.filterMap fun p => (Reorg.parseSegmentF p.2).map fun v =>
        ({ item := p.1, x := v.1, y := v.2.1, width := v.2.2.1,
           height := v.2.2.2, label := 1 } : Reorg.Box)).map
      (fun b => b.item)) =
      l.filterMap fun p =>
        if (Reorg.parseSegmentF p.2).isSome then some p.1 else none := by
  induction l with
  | nil => rfl
  | cons p l ih =>
    cases e : Reorg.parseSegmentF p.2 with
    | none => simp [List.filterMap_cons, e, ih]
    | some v => simp [List.filterMap_cons, e, ih]

/-- Counterexample to C3 as stated: when a middle segment is dropped the
`item` values written are not consecutive — on `"0 0 1 1;bad;2 2 3 3"` the
two emitted rows carry items `0` and `2`, so the second emitted box
(0-indexed position 1) does not have item 1. -/
theorem C3_counterexample :
    (Reorg.parse_boxes_string (some "0 0 1 1;bad;2 2 3 3")).map
        (fun b => b.item) = [0, 2] ∧
    (Reorg.parse_boxes_string (some "0 0 1 1;bad;2 2 3 3")).map
        (fun b => b.item) ≠
      List.range (Reorg.parse_boxes_string (some "0 0 1 1;bad;2 2 3 3")).length := by
  constructor <;> decide

/-- C3 (amended): every per-image CSV written by the Reorganizer has header
`#item,x,y,width,height,label` and label 1 on every row, and the `item`
column of each emitted row equals the 0-based index of its segment within
the `BoxesString` (blank and malformed segments counted) — consecutive
`0, 1, 2, ...` exactly when no segment is dropped. -/
theorem C3_amended_item_is_segment_index (s : Option String) :
    (Reorg.create_csv_rows (Reorg.parse_boxes_string s)).head? =
      some ["#item", "x", "y", "width", "height", "label"] ∧
    (∀ b ∈ Reorg.parse_boxes_string s, b.label = 1) ∧
    (Reorg.parse_boxes_string s).map (fun b => b.item) = Reorg.validSegIdxs s := by
  refine ⟨rfl, ?labels, ?items⟩
  · intro b hb
    cases s with
    | none => simp [Reorg.parse_boxes_string] at hb
    | some str =>
      by_cases hemp : str = ""
      · simp [Reorg.parse_boxes_string, hemp] at hb
      · rw [Reorg.parse_boxes_string, if_neg hemp] at hb
        obtain ⟨p, _, hp⟩ := List.mem_filterMap.mp hb
        obtain ⟨v, _, hv⟩ := Option.map_eq_some'.mp hp
        rw [← hv]
  · cases s with
    | none => rfl
    | some str =>
      by_cases hemp : str = ""
      · simp [Reorg.parse_boxes_string, Reorg.validSegIdxs, hemp]
      · rw [Reorg.parse_boxes_string, if_neg hemp, Reorg.validSegIdxs, if_neg hemp]
        exact map_item_filterMap _

/-! ## Claims about the split files (C4) -/

theorem mem_sortDedup {x : String} {l : List String} : x ∈ sortDedup l ↔ x ∈ l := by
  unfold sortDedup
  rw [(List.perm_insertionSort strLe l.dedup).mem_iff, List.mem_dedup]

theorem sortDedup_sorted (l : List String) : List.Sorted strLe (sortDedup l) :=
  List.sorted_insertionSort strLe l.dedup

theorem sortDedup_nodup (l : List String) : (sortDedup l).Nodup :=
  ((List.perm_insertionSort strLe l.dedup).nodup_iff).mpr (List.nodup_dedup l)

theorem strLtb_irrefl : ∀ as : List Char, strLtb as as = false := by
  intro as
  induction as with
  | nil => rfl
  | cons a l ih => simp [strLtb, ih]

theorem strLt_ne {a b : String} (h : strLt a b) : a ≠ b := by
  intro he
  subst he
  rw [strLt, strLtb_irrefl] at h
  exact absurd h (by simp)

theorem sortDedup_pairwise_lt (l : List String) : List.Pairwise strLt (sortDedup l) := by
  have hs : List.Pairwise strLe (sortDedup l) := sortDedup_sorted l
  have hn : List.Pairwise (fun a b : String => a ≠ b) (sortDedup l) := sortDedup_nodup l
  have hand := hs.and hn
  exact hand.imp (fun h => Or.resolve_right h.1 h.2)

theorem mem_setsLines {x : String} {names : List String} :
    x ∈ setsLines names ↔ ∃ n ∈ names, pathStem n = x := by
  unfold setsLines
  simp [List.mem_map, mem_sortDedup]

theorem mem_setsLines_append {x : String} {l1 l2 : List String} :
    x ∈ setsLines (l1 ++ l2) ↔ x ∈ setsLines l1 ∨ x ∈ setsLines l2 := by
  simp only [mem_setsLines]
  constructor
  · rintro ⟨n, hn, he⟩
    rcases List.mem_append.mp hn with h | h
    · exact Or.inl ⟨n, h, he⟩
    · exact Or.inr ⟨n, h, he⟩
  · rintro (⟨n, h, he⟩ | ⟨n, h, he⟩)
    · exact ⟨n, List.mem_append.mpr (Or.inl h), he⟩
    · exact ⟨n, List.mem_append.mpr (Or.inr h), he⟩

theorem stepImage_setsFiles (c : Nat) (name : String) (s : Reorg.FS) :
    (Reorg.stepImage c name s).setsFiles = s.setsFiles := by
  unfold Reorg.stepImage
  split <;> rfl

theorem stepJson_setsFiles (env : Reorg.WideEnv) (st : String) (s : Reorg.FS) :
    (Reorg.stepJson env st s).setsFiles = s.setsFiles := by
  unfold Reorg.stepJson
  split
  · rfl
  · split <;> rfl

theorem stepCsv_setsFiles (rows : List (List String)) (st : String) (s : Reorg.FS) :
    (Reorg.stepCsv rows st s).setsFiles = s.setsFiles := rfl

theorem processItem_setsFiles (env : Reorg.WideEnv) (s : Reorg.FS) (it : String × String) :
    (Reorg.processItem env s it).setsFiles = s.setsFiles := by
  unfold Reorg.processItem
  split
  · rfl
  · rw [stepCsv_setsFiles, stepJson_setsFiles, stepImage_setsFiles]

theorem foldl_processItem_setsFiles (env : Reorg.WideEnv) :
    ∀ (items : List (String × String)) (s : Reorg.FS),
      (items.foldl (Reorg.processItem env) s).setsFiles = s.setsFiles := by
  intro items
  induction items with
  | nil => intro s; rfl
  | cons it l ih => intro s; rw [List.foldl_cons, ih, processItem_setsFiles]

theorem runReorg_setsFiles (train val test : List (String × String))
    (env : Reorg.WideEnv) (s : Reorg.FS) :
    (Reorg.runReorg train val test env s).setsFiles =
      Reorg.updSets (train.map Prod.fst) (val.map Prod.fst) (test.map Prod.fst)
        s.setsFiles := by
  unfold Reorg.runReorg
  rw [foldl_processItem_setsFiles]

/-- Counterexample to C4 as stated: the Reorganizer sorts the full image
NAMES and then writes their STEMS, so the written lines need be neither
sorted nor duplicate-free.  With train rows named `a.b.png` and `a.png`
the file holds `a.b` before `a` (unsorted); with rows named `x.jpg` and
`x.png` it holds the line `x` twice. -/
theorem C4_counterexample :
    (Reorg.runReorg [("a.b.png", ""), ("a.png", "")] [] [] noSrcEnv
        emptyFS).setsFiles "train" = some ["a.b", "a"] ∧
    ¬ List.Sorted strLe ["a.b", "a"] ∧
    (Reorg.runReorg [("x.jpg", ""), ("x.png", "")] [] [] noSrcEnv
        emptyFS).setsFiles "train" = some ["x", "x"] ∧
    ¬ (["x", "x"] : List String).Nodup := by
  refine ⟨?f1, ?s1, ?f2, ?s2⟩ <;> decide

/-- C4 (amended): the Reorganizer writes the five split files with the
claimed member-set structure — as sets of stems, `all = train ∪ val ∪
test` and `train_val = train ∪ val` — and each file lists the stems of the
lexicographically sorted distinct image names.  The listed lines are
themselves sorted with no duplicates whenever taking stems is strictly
order-preserving on the names involved (when it is not, sortedness and
distinctness can fail). -/
theorem C4_amended_split_files (train val test : List (String × String))
    (env : Reorg.WideEnv) (s : Reorg.FS) (names : List String)
    (hmono : ∀ a ∈ names, ∀ b ∈ names, strLt a b → strLt (pathStem a) (pathStem b)) :
    (Reorg.runReorg train val test env s).setsFiles "train" =
      some (setsLines (train.map Prod.fst)) ∧
    (Reorg.runReorg train val test env s).setsFiles "val" =
      some (setsLines (val.map Prod.fst)) ∧
    (Reorg.runReorg train val test env s).setsFiles "test" =
      some (setsLines (test.map Prod.fst)) ∧
    (Reorg.runReorg train val test env s).setsFiles "all" =
      some (setsLines (train.map Prod.fst ++ val.map Prod.fst ++ test.map Prod.fst)) ∧
    (Reorg.runReorg train val test env s).setsFiles "train_val" =
      some (setsLines (train.map Prod.fst ++ val.map Prod.fst)) ∧
    (∀ x, x ∈ setsLines (train.map Prod.fst ++ val.map Prod.fst ++ test.map Prod.fst) ↔
      x ∈ setsLines (train.map Prod.fst) ∨ x ∈ setsLines (val.map Prod.fst) ∨
      x ∈ setsLines (test.map Prod.fst)) ∧
    (∀ x, x ∈ setsLines (train.map Prod.fst ++ val.map Prod.fst) ↔
      x ∈ setsLines (train.map Prod.fst) ∨ x ∈ setsLines (val.map Prod.fst)) ∧
    List.Pairwise strLt (setsLines names) ∧
    (setsLines names).Nodup := by
  rw [runReorg_setsFiles]
  have hpw : List.Pairwise strLt (setsLines names) := by
    have hp := sortDedup_pairwise_lt names
    have hp2 : List.Pairwise (fun a b => strLt (pathStem a) (pathStem b))
        (sortDedup names) := by
      refine List.Pairwise.imp_of_mem ?impl hp
      intro a b ha hb hab
      exact hmono a (mem_sortDedup.mp ha) b (mem_sortDedup.mp hb) hab
    exact List.pairwise_map.mpr hp2
  refine ⟨by simp [Reorg.updSets], by simp [Reorg.updSets], by simp [Reorg.updSets],
    by simp [Reorg.updSets], by simp [Reorg.updSets], ?ma, ?mtv, hpw,
    hpw.imp (fun h => strLt_ne h)⟩
  · intro x
    rw [mem_setsLines_append, mem_setsLines_append, or_assoc]
  · intro x
    rw [mem_setsLines_append]

/-- Witness for the amended C4: on names `b.png`, `a.png` (where taking
stems preserves order) the train file is the sorted duplicate-free
`["a", "b"]`. -/
theorem C4_amended_witness :
    (Reorg.runReorg [("b.png", ""), ("a.png", "")] [] [] noSrcEnv
        emptyFS).setsFiles "train" = some ["a", "b"] ∧
    List.Pairwise strLt (setsLines ["a.png", "b.png"]) := by
  have h := C4_amended_split_files [("b.png", ""), ("a.png", "")] [] [] noSrcEnv
    emptyFS ["a.png", "b.png"] (by decide)
  obtain ⟨hf, -, -, -, -, -, -, hpw, -⟩ := h
  refine ⟨?file, hpw⟩
  rw [hf]
  decide

/-! ## Claims about per-image CSV row parsing (C6) -/

/-- C6: for every per-image CSV row with parseable `x` and `y`: a parseable
radius field takes priority and yields the square bbox
`[x-r, y-r, 2r, 2r]` with `area = (2r)^2`; otherwise parseable width and
height fields yield `[x, y, w, h]` with `area = w*h`; otherwise the row is
skipped. -/
theorem C6_row_radius_priority (row : List (String × String)) (x y : ℚ)
    (hx : Coco.rowGet row ["x", "xc", "x_center"] = some x)
    (hy : Coco.rowGet row ["y", "yc", "y_center"] = some y) :
    (∀ r : ℚ, Coco.rowGet row ["r", "radius"] = some r →
      Coco.parse_csv_row row =
        some { bbox := [x - r, y - r, 2 * r, 2 * r], area := (2 * r) * (2 * r),
               category_id := Coco.catOf row }) ∧
    (Coco.rowGet row ["r", "radius"] = none →
      ∀ w h : ℚ, Coco.rowGet row ["w", "width", "dx"] = some w →
        Coco.rowGet row ["h", "height", "dy"] = some h →
        Coco.parse_csv_row row =
          some { bbox := [x, y, w, h], area := w * h,
                 category_id := Coco.catOf row }) ∧
    (Coco.rowGet row ["r", "radius"] = none →
      (Coco.rowGet row ["w", "width", "dx"] = none ∨
       Coco.rowGet row ["h", "height", "dy"] = none) →
      Coco.parse_csv_row row = none) := by
  refine ⟨?rad, ?rect, ?skip⟩
  · intro r hr
    simp [Coco.parse_csv_row, hx, hy, hr]
  · intro hr w h hw hh
    simp [Coco.parse_csv_row, hx, hy, hr, hw, hh]
  · intro hr hwh
    rcases hwh with hw | hh
    · simp [Coco.parse_csv_row, hx, hy, hr, hw]
    · cases hw2 : Coco.rowGet row ["w", "width", "dx"] with
      | none => simp [Coco.parse_csv_row, hx, hy, hr, hw2]
      | some w => simp [Coco.parse_csv_row, hx, hy, hr, hw2, hh]

/-- Witness for C6: the circle row `{x: 5, y: 5, r: 3}` yields
`bbox = [2, 2, 6, 6]` and `area = 36` (with the default category 1). -/
theorem C6_row_radius_priority_witness :
    Coco.parse_csv_row [("x", "5"), ("y", "5"), ("r", "3")] =
      some { bbox := [2, 2, 6, 6], area := 36, category_id := 1 } := by
  have h5 : parseFloatTok "5".data = some ((5 : ℚ)) := by
    have hc := @parseFloatTok_of_parseIntTok "5".data 5 (by decide)
    rw [hc]; norm_cast
  have h3 : parseFloatTok "3".data = some ((3 : ℚ)) := by
    have hc := @parseFloatTok_of_parseIntTok "3".data 3 (by decide)
    rw [hc]; norm_cast
  have hx : Coco.rowGet [("x", "5"), ("y", "5"), ("r", "3")] ["x", "xc", "x_center"] =
      some 5 := by
    have hd : dictGet [("x", "5"), ("y", "5"), ("r", "3")] "x" = some "5" := by decide
    rw [Coco.rowGet, hd]
    simp [h5]
  have hy : Coco.rowGet [("x", "5"), ("y", "5"), ("r", "3")] ["y", "yc", "y_center"] =
      some 5 := by
    have hd : dictGet [("x", "5"), ("y", "5"), ("r", "3")] "y" = some "5" := by decide
    rw [Coco.rowGet, hd]
    simp [h5]
  have hr : Coco.rowGet [("x", "5"), ("y", "5"), ("r", "3")] ["r", "radius"] =
      some 3 := by
    have hd : dictGet [("x", "5"), ("y", "5"), ("r", "3")] "r" = some "3" := by decide
    rw [Coco.rowGet, hd]
    simp [h3]
  have hcat : Coco.catOf [("x", "5"), ("y", "5"), ("r", "3")] = 1 := by decide
  have h := (C6_row_radius_priority _ 5 5 hx hy).1 3 hr
  rw [h, hcat]
  norm_num

/-! ## Claims about the COCO collectors (C7, C8) -/

theorem mkAnns_image_id (imgId : Nat) :
    ∀ (annId : Nat) (boxes : List Coco.CsvBox),
      ∀ ann ∈ Coco.mkAnns imgId annId boxes, ann.image_id = imgId := by
  intro annId boxes
  induction boxes generalizing annId with
  | nil => intro ann h; simp [Coco.mkAnns] at h
  | cons b bs ih =>
    intro ann h
    rw [Coco.mkAnns] at h
    rcases List.mem_cons.mp h with he | hm
    · subst he; rfl
    · exact ih _ ann hm

theorem mkAnns_length (imgId : Nat) :
    ∀ (annId : Nat) (boxes : List Coco.CsvBox),
      (Coco.mkAnns imgId annId boxes).length = boxes.length := by
  intro annId boxes
  induction boxes generalizing annId with
  | nil => rfl
  | cons b bs ih => simp [Coco.mkAnns, ih]

theorem gAnns_image_id (imageId annBase : Int) :
    ∀ (i : Nat) (boxes : List GenCoco.Box),
      ∀ ann ∈ GenCoco.gAnns imageId annBase i boxes, ann.image_id = imageId := by
  intro i boxes
  induction boxes generalizing i with
  | nil => intro ann h; simp [GenCoco.gAnns] at h
  | cons b bs ih =>
    intro ann h
    rw [GenCoco.gAnns] at h
    rcases List.mem_cons.mp h with he | hm
    · subst he; rfl
    · exact ih _ ann hm

theorem collectGo_refint (ex : String → Bool) (size : String → Nat × Nat)
    (csvF : String → Option (List (List String))) (cat : String) :
    ∀ (stems : List String) (imgId annId : Nat),
      ∀ ann ∈ (Coco.collectGo ex size csvF cat imgId annId stems).2,
        ∃ img ∈ (Coco.collectGo ex size csvF cat imgId annId stems).1,
          img.id = ann.image_id := by
  intro stems
  induction stems with
  | nil => intro imgId annId ann h; simp [Coco.collectGo] at h
  | cons st rest ih =>
    intro imgId annId ann h
    rw [Coco.collectGo] at h ⊢
    cases hres : Coco.resolveImage ex st with
    | none =>
      rw [hres] at h
      dsimp only at h ⊢
      exact ih _ _ ann h
    | some fname =>
      rw [hres] at h
      dsimp only at h ⊢
      rcases List.mem_append.mp h with hm | hm
      · refine ⟨_, List.mem_cons_self _ _, ?_⟩
        exact (mkAnns_image_id imgId _ _ ann hm).symm
      · obtain ⟨img, hin, hid⟩ := ih _ _ ann hm
        exact ⟨img, List.mem_cons_of_mem _ hin, hid⟩

/-- C7: in every COCO document produced by either converter, every
annotation's `image_id` references an image in the document's `images`
list, by construction: the split collector only appends annotations for
the image it has just registered, and the single-image converter issues
all annotations against its one image. -/
theorem C7_annotation_references_image :
    (∀ (stems : List String) (ex : String → Bool) (size : String → Nat × Nat)
      (csvF : String → Option (List (List String))) (cat : String),
      ∀ ann ∈ (Coco.collectSplit stems ex size csvF cat).2,
        ∃ img ∈ (Coco.collectSplit stems ex size csvF cat).1,
          img.id = ann.image_id) ∧
    (∀ (name : String) (w h : Nat) (boxes : List GenCoco.Box) (imageId annId : Int),
      ∀ ann ∈ (GenCoco.create_coco_annotation name w h boxes imageId annId).annotations,
        ∃ img ∈ (GenCoco.create_coco_annotation name w h boxes imageId annId).images,
          img.id = ann.image_id) := by
  constructor
  · intro stems ex size csvF cat ann h
    exact collectGo_refint ex size csvF cat _ 1 1 ann h
  · intro name w h boxes imageId annId ann hm
    refine ⟨_, List.mem_singleton_self _, ?_⟩
    exact (gAnns_image_id imageId annId 0 boxes ann hm).symm

/-- Witness for C7: a one-box single-image document with pre-minted ids 7
and 9 — its annotation references image 7. -/
theorem C7_annotation_references_image_witness :
    ∃ img ∈ (GenCoco.create_coco_annotation "a.png" 4 4
        [{ bbox := [0, 0, 1, 1], area := 1 }] 7 9).images,
      img.id = ({ id := 9, image_id := 7, category_id := 1, area := 1,
                  bbox := [0, 0, 1, 1] } : GenCoco.GAnn).image_id := by
  exact C7_annotation_references_image.2 "a.png" 4 4
    [{ bbox := [0, 0, 1, 1], area := 1 }] 7 9 _ (by decide)

theorem range1_append (s k m : Nat) :
    List.range' s k ++ List.range' (s + k) m = List.range' s (k + m) := by
  have h := List.range'_append s k m 1
  rw [Nat.one_mul] at h
  rw [Nat.add_comm k m]
  exact h

theorem range1_succ (s n : Nat) : List.range' s (n + 1) = s :: List.range' (s + 1) n :=
  List.range'_succ s n 1

theorem mkAnns_map_id (imgId : Nat) :
    ∀ (annId : Nat) (boxes : List Coco.CsvBox),
      (Coco.mkAnns imgId annId boxes).map (fun a => a.id) =
        List.range' annId boxes.length := by
  intro annId boxes
  induction boxes generalizing annId with
  | nil => rfl
  | cons b bs ih =>
    show annId :: (Coco.mkAnns imgId (annId + 1) bs).map (fun a => a.id) =
      List.range' annId (bs.length + 1)
    rw [ih, range1_succ]

theorem collectGo_ids (ex : String → Bool) (size : String → Nat × Nat)
    (csvF : String → Option (List (List String))) (cat : String) :
    ∀ (stems : List String) (imgId annId : Nat),
      ((Coco.collectGo ex size csvF cat imgId annId stems).1.map (fun i => i.id) =
        List.range' imgId (Coco.collectGo ex size csvF cat imgId annId stems).1.length) ∧
      ((Coco.collectGo ex size csvF cat imgId annId stems).2.map (fun a => a.id) =
        List.range' annId (Coco.collectGo ex size csvF cat imgId annId stems).2.length) ∧
      ((Coco.collectGo ex size csvF cat imgId annId stems).1.map (fun i => i.file_name) =
        stems.filterMap (fun st =>
          (Coco.resolveImage ex st).map (fun f => cat ++ "/images/" ++ f))) := by
  intro stems
  induction stems with
  | nil => intro imgId annId; exact ⟨rfl, rfl, rfl⟩
  | cons st rest ih =>
    intro imgId annId
    rw [Coco.collectGo]
    cases hres : Coco.resolveImage ex st with
    | none =>
      dsimp only
      obtain ⟨h1, h2, h3⟩ := ih imgId annId
      refine ⟨h1, h2, ?_⟩
      rw [List.filterMap_cons, hres]
      simpa using h3
    | some fname =>
      dsimp only
      obtain ⟨h1, h2, h3⟩ :=
        ih (imgId + 1) (annId + (Coco.parse_csv_boxes (csvF st)).length)
      refine ⟨?_, ?_, ?_⟩
      · show imgId :: _ = _
        rw [h1, List.length_cons, range1_succ]
      · rw [List.map_append, h2, mkAnns_map_id, List.length_append, mkAnns_length,
          range1_append]
      · show (cat ++ "/images/" ++ fname) :: _ = _
        rw [List.filterMap_cons, hres]
        simpa using h3

/-- C8: in a split-level COCO document the image stems are processed in
lexicographically sorted order without duplicates, image ids are the
consecutive integers `1, 2, ...` assigned in that order to the stems whose
image file is found (expressed through the file names recorded in
processing order), and annotation ids are the consecutive integers
`1, 2, ...` assigned in row order across the whole document. -/
theorem C8_sorted_stems_sequential_ids (stems : List String) (ex : String → Bool)
    (size : String → Nat × Nat) (csvF : String → Option (List (List String)))
    (cat : String) :
    List.Sorted strLe (sortDedup stems) ∧
    (sortDedup stems).Nodup ∧
    ((Coco.collectSplit stems ex size csvF cat).1.map (fun i => i.id) =
      List.range' 1 (Coco.collectSplit stems ex size csvF cat).1.length) ∧
    ((Coco.collectSplit stems ex size csvF cat).2.map (fun a => a.id) =
      List.range' 1 (Coco.collectSplit stems ex size csvF cat).2.length) ∧
    ((Coco.collectSplit stems ex size csvF cat).1.map (fun i => i.file_name) =
      (sortDedup stems).filterMap (fun st =>
        (Coco.resolveImage ex st).map (fun f => cat ++ "/images/" ++ f))) := by
  obtain ⟨h1, h2, h3⟩ := collectGo_ids ex size csvF cat (sortDedup stems) 1 1
  exact ⟨sortDedup_sorted stems, sortDedup_nodup stems, h1, h2, h3⟩

/-! ## Claims about re-running the Reorganizer (C9) -/

theorem orSome_none_right (a : Option α) : Reorg.orSome a none = a := by
  cases a <;> rfl

theorem orSome_assoc (a b c : Option α) :
    Reorg.orSome (Reorg.orSome a b) c = Reorg.orSome a (Reorg.orSome b c) := by
  cases a <;> rfl

theorem orSome_absorb_right (a b : Option α) :
    Reorg.orSome (Reorg.orSome a b) b = Reorg.orSome a b := by
  cases a <;> cases b <;> rfl

theorem orSome_absorb_left (a b : Option α) :
    Reorg.orSome a (Reorg.orSome a b) = Reorg.orSome a b := by
  cases a <;> rfl

theorem stepJson_destImages (env : Reorg.WideEnv) (st : String) (s : Reorg.FS) :
    (Reorg.stepJson env st s).destImages = s.destImages := by
  unfold Reorg.stepJson
  split
  · rfl
  · split <;> rfl

theorem stepImage_destJson (c : Nat) (name : String) (s : Reorg.FS) :
    (Reorg.stepImage c name s).destJson = s.destJson := by
  unfold Reorg.stepImage
  split <;> rfl

theorem stepImage_csvFiles (c : Nat) (name : String) (s : Reorg.FS) :
    (Reorg.stepImage c name s).csvFiles = s.csvFiles := by
  unfold Reorg.stepImage
  split <;> rfl

theorem stepJson_csvFiles (env : Reorg.WideEnv) (st : String) (s : Reorg.FS) :
    (Reorg.stepJson env st s).csvFiles = s.csvFiles := by
  unfold Reorg.stepJson
  split
  · rfl
  · split <;> rfl

theorem stepImage_destImages (c : Nat) (name : String) (s : Reorg.FS) (n : String) :
    (Reorg.stepImage c name s).destImages n =
      Reorg.orSome (s.destImages n) (if name = n then some c else none) := by
  unfold Reorg.stepImage
  by_cases hex : (s.destImages name).isSome
  · rw [if_pos hex]
    by_cases hn : name = n
    · subst hn
      cases hd : s.destImages name
      · rw [hd] at hex; simp at hex
      · rfl
    · rw [if_neg hn, orSome_none_right]
  · rw [if_neg hex]
    by_cases hn : name = n
    · subst hn
      cases hd : s.destImages name
      · simp [Reorg.orSome, hd]
      · rw [hd] at hex; simp at hex
    · have hn2 : ¬ n = name := fun he => hn he.symm
      simp only [hn2, if_false, hn, orSome_none_right]

theorem processItem_destImages (env : Reorg.WideEnv) (s : Reorg.FS)
    (it : String × String) (n : String) :
    (Reorg.processItem env s it).destImages n =
      Reorg.orSome (s.destImages n) (if it.1 = n then env.srcImage n else none) := by
  unfold Reorg.processItem
  cases hsrc : env.srcImage it.1 with
  | none =>
    dsimp only
    by_cases hn : it.1 = n
    · rw [if_pos hn, ← hn, hsrc, orSome_none_right]
    · rw [if_neg hn, orSome_none_right]
  | some c =>
    dsimp only
    have hcsv : ∀ (rows : List (List String)) (st : String) (t : Reorg.FS),
        (Reorg.stepCsv rows st t).destImages = t.destImages := fun _ _ _ => rfl
    rw [hcsv, stepJson_destImages, stepImage_destImages]
    by_cases hn : it.1 = n
    · rw [if_pos hn, if_pos hn, ← hn, hsrc]
    · rw [if_neg hn, if_neg hn]

theorem foldl_destImages (env : Reorg.WideEnv) :
    ∀ (items : List (String × String)) (s : Reorg.FS) (n : String),
      ((items.foldl (Reorg.processItem env) s).destImages n) =
        Reorg.orSome (s.destImages n) (Reorg.imgWrite env items n) := by
  intro items
  induction items with
  | nil => intro s n; rw [List.foldl_nil, Reorg.imgWrite, orSome_none_right]
  | cons it l ih =>
    intro s n
    rw [List.foldl_cons, ih, processItem_destImages, Reorg.imgWrite, orSome_assoc]

theorem stepJson_destJson (env : Reorg.WideEnv) (st : String) (s : Reorg.FS)
    (n : String) :
    (Reorg.stepJson env st s).destJson n =
      Reorg.orSome (s.destJson n) (if st = n then env.srcJson n else none) := by
  unfold Reorg.stepJson
  cases hj : env.srcJson st with
  | none =>
    dsimp only
    by_cases hn : st = n
    · rw [if_pos hn, ← hn, hj, orSome_none_right]
    · rw [if_neg hn, orSome_none_right]
  | some j =>
    dsimp only
    by_cases hex : (s.destJson st).isSome
    · rw [if_pos hex]
      by_cases hn : st = n
      · subst hn
        cases hd : s.destJson st with
        | none => rw [hd] at hex; simp at hex
        | some a => rfl
      · rw [if_neg hn, orSome_none_right]
    · rw [if_neg hex]
      dsimp only
      by_cases hn : st = n
      · subst hn
        have hd : s.destJson st = none := by
          cases hdd : s.destJson st with
          | none => rfl
          | some a => rw [hdd] at hex; simp at hex
        rw [if_pos rfl, if_pos rfl, hd, hj]
        rfl
      · have hn2 : ¬ n = st := fun he => hn he.symm
        rw [if_neg hn2, if_neg hn, orSome_none_right]

theorem processItem_destJson (env : Reorg.WideEnv) (s : Reorg.FS)
    (it : String × String) (n : String) :
    (Reorg.processItem env s it).destJson n =
      Reorg.orSome (s.destJson n)
        (if (env.srcImage it.1).isSome ∧ pathStem it.1 = n
         then env.srcJson n else none) := by
  unfold Reorg.processItem
  cases hsrc : env.srcImage it.1 with
  | none =>
    dsimp only
    rw [if_neg (by simp [hsrc]), orSome_none_right]
  | some c =>
    dsimp only
    have hcsv : ∀ (rows : List (List String)) (st : String) (t : Reorg.FS),
        (Reorg.stepCsv rows st t).destJson = t.destJson := fun _ _ _ => rfl
    rw [hcsv, stepJson_destJson, stepImage_destJson]
    by_cases hn : pathStem it.1 = n
    · rw [if_pos hn, if_pos ⟨rfl, hn⟩]
    · rw [if_neg hn, if_neg (fun hc => hn hc.2)]

theorem foldl_destJson (env : Reorg.WideEnv) :
    ∀ (items : List (String × String)) (s : Reorg.FS) (n : String),
      ((items.foldl (Reorg.processItem env) s).destJson n) =
        Reorg.orSome (s.destJson n) (Reorg.jsonWrite env items n) := by
  intro items
  induction items with
  | nil => intro s n; rw [List.foldl_nil, Reorg.jsonWrite, orSome_none_right]
  | cons it l ih =>
    intro s n
    rw [List.foldl_cons, ih, processItem_destJson, Reorg.jsonWrite, orSome_assoc]

theorem processItem_csvFiles (env : Reorg.WideEnv) (s : Reorg.FS)
    (it : String × String) (n : String) :
    (Reorg.processItem env s it).csvFiles n =
      Reorg.orSome
        (if (env.srcImage it.1).isSome ∧ pathStem it.1 = n
         then some (Reorg.create_csv_rows (Reorg.parse_boxes_string (some it.2)))
         else none)
        (s.csvFiles n) := by
  unfold Reorg.processItem
  cases hsrc : env.srcImage it.1 with
  | none =>
    dsimp only
    rw [if_neg (by simp [hsrc])]
    rfl
  | some c =>
    dsimp only
    unfold Reorg.stepCsv
    dsimp only
    have h1 : (Reorg.stepJson env (pathStem it.1)
        (Reorg.stepImage c it.1 s)).csvFiles = s.csvFiles := by
      rw [stepJson_csvFiles, stepImage_csvFiles]
    rw [h1]
    by_cases hn : n = pathStem it.1
    · rw [if_pos hn, if_pos ⟨rfl, hn.symm⟩]
      rfl
    · rw [if_neg hn, if_neg (fun hc => hn hc.2.symm)]
      rfl

theorem foldl_csvFiles (env : Reorg.WideEnv) :
    ∀ (items : List (String × String)) (s : Reorg.FS) (n : String),
      ((items.foldl (Reorg.processItem env) s).csvFiles n) =
        Reorg.orSome (Reorg.csvWrite env items n) (s.csvFiles n) := by
  intro items
  induction items with
  | nil => intro s n; rw [List.foldl_nil, Reorg.csvWrite]; rfl
  | cons it l ih =>
    intro s n
    rw [List.foldl_cons, ih, processItem_csvFiles, Reorg.csvWrite, ← orSome_assoc]

theorem updSets_idem (tn vn ten : List String) (f : String → Option (List String)) :
    Reorg.updSets tn vn ten (Reorg.updSets tn vn ten f) = Reorg.updSets tn vn ten f := by
  funext n
  unfold Reorg.updSets
  split_ifs <;> rfl

theorem runReorg_destImages (train val test : List (String × String))
    (env : Reorg.WideEnv) (s : Reorg.FS) (n : String) :
    (Reorg.runReorg train val test env s).destImages n =
      Reorg.orSome (s.destImages n)
        (Reorg.imgWrite env (dictMerge (dictMerge train val) test) n) := by
  unfold Reorg.runReorg
  rw [foldl_destImages]

theorem runReorg_destJson (train val test : List (String × String))
    (env : Reorg.WideEnv) (s : Reorg.FS) (n : String) :
    (Reorg.runReorg train val test env s).destJson n =
      Reorg.orSome (s.destJson n)
        (Reorg.jsonWrite env (dictMerge (dictMerge train val) test) n) := by
  unfold Reorg.runReorg
  rw [foldl_destJson]

theorem runReorg_csvFiles (train val test : List (String × String))
    (env : Reorg.WideEnv) (s : Reorg.FS) (n : String) :
    (Reorg.runReorg train val test env s).csvFiles n =
      Reorg.orSome (Reorg.csvWrite env (dictMerge (dictMerge train val) test) n)
        (s.csvFiles n) := by
  unfold Reorg.runReorg
  rw [foldl_csvFiles]

/-- C9: re-running the Reorganizer over the same inputs is idempotent on
its outputs — the second run rewrites every per-image CSV with identical
contents, rewrites the sets files identically, and copies nothing new into
`images/` or `json/`; moreover a destination file already present before a
run is never overwritten, because image and JSON copies are guarded by a
destination-exists check while the CSV write is unconditional. -/
theorem C9_rerun_idempotent (train val test : List (String × String))
    (env : Reorg.WideEnv) (s : Reorg.FS) :
    Reorg.runReorg train val test env (Reorg.runReorg train val test env s) =
      Reorg.runReorg train val test env s ∧
    (∀ n a, s.destImages n = some a →
      (Reorg.runReorg train val test env s).destImages n = some a) ∧
    (∀ n a, s.destJson n = some a →
      (Reorg.runReorg train val test env s).destJson n = some a) := by
  refine ⟨?idem, ?noimg, ?nojson⟩
  · apply Reorg.FS.ext
    · funext n
      rw [runReorg_destImages, runReorg_destImages]
      exact orSome_absorb_right _ _
    · funext n
      rw [runReorg_destJson, runReorg_destJson]
      exact orSome_absorb_right _ _
    · funext n
      rw [runReorg_csvFiles, runReorg_csvFiles]
      exact orSome_absorb_left _ _
    · rw [runReorg_setsFiles, runReorg_setsFiles]
      exact updSets_idem _ _ _ _
  · intro n a h
    rw [runReorg_destImages, h]
    rfl
  · intro n a h
    rw [runReorg_destJson, h]
    rfl

/-! ## The round-trip claim (C2) -/

theorem parseFloat_zero_point_zero : parseFloatTok ['0', '.', '0'] = some ((0 : ℚ)) := by
  have h0 : parseFloatTok ['0', '.', '0'] = some (applyExp (mantissa ['0'] ['0']) 0) := rfl
  rw [h0, applyExp_zero]
  norm_num [mantissa, show digitsToNat ['0'] = 0 from rfl]

theorem parseFloat_ten_point_zero :
    parseFloatTok ['1', '0', '.', '0'] = some ((10 : ℚ)) := by
  have h0 : parseFloatTok ['1', '0', '.', '0'] =
      some (applyExp (mantissa ['1', '0'] ['0']) 0) := rfl
  rw [h0, applyExp_zero]
  norm_num [mantissa, show digitsToNat ['1', '0'] = 10 from rfl,
    show digitsToNat ['0'] = 0 from rfl]

theorem parseFloat_one : parseFloatTok ['1'] = some ((1 : ℚ)) := by
  have h0 : parseFloatTok ['1'] = some (applyExp ((digitsToNat ['1'] : ℚ)) 0) := rfl
  rw [h0, applyExp_zero]
  norm_num [show digitsToNat ['1'] = 1 from rfl]

theorem rt_parse_boxes : Reorg.parse_boxes_string (some "0 0 10 10") =
    [{ item := 0, x := 0, y := 0, width := 10, height := 10, label := 1 }] := by
  have hseg : Reorg.parseSegmentF "0 0 10 10".data = some (0, 0, 10, 10) := by
    have h := segF_of_segI
      (show GenCoco.parseSegmentI "0 0 10 10".data = some (0, 0, 10, 10) by decide)
    rw [h]
    norm_num
  rw [Reorg.parse_boxes_string, if_neg (by decide)]
  rw [show splitOnChar ';' ("0 0 10 10".data) = ["0 0 10 10".data] from by decide]
  simp [List.enum, List.enumFrom, hseg]

theorem rt_csv_rows :
    Reorg.create_csv_rows
      [{ item := 0, x := 0, y := 0, width := 10, height := 10, label := 1 }] =
    [["#item", "x", "y", "width", "height", "label"],
     ["0", "0.0", "0.0", "10.0", "10.0", "1"]] := by
  decide

theorem rt_parse_csv :
    Coco.parse_csv_boxes (some [["#item", "x", "y", "width", "height", "label"],
        ["0", "0.0", "0.0", "10.0", "10.0", "1"]]) =
      [{ bbox := [0, 0, 10, 10], area := 100, category_id := 1 }] := by
  have hz : ((["#item", "x", "y", "width", "height", "label"].map lowerStr).zip
      ["0", "0.0", "0.0", "10.0", "10.0", "1"]) =
      [("#item", "0"), ("x", "0.0"), ("y", "0.0"), ("width", "10.0"),
       ("height", "10.0"), ("label", "1")] := by decide
  have hx : Coco.rowGet [("#item", "0"), ("x", "0.0"), ("y", "0.0"),
      ("width", "10.0"), ("height", "10.0"), ("label", "1")]
      ["x", "xc", "x_center"] = some 0 := by
    rw [Coco.rowGet, show dictGet [("#item", "0"), ("x", "0.0"), ("y", "0.0"),
      ("width", "10.0"), ("height", "10.0"), ("label", "1")] "x" = some "0.0"
      from by decide]
    simp [parseFloat_zero_point_zero]
  have hy : Coco.rowGet [("#item", "0"), ("x", "0.0"), ("y", "0.0"),
      ("width", "10.0"), ("height", "10.0"), ("label", "1")]
      ["y", "yc", "y_center"] = some 0 := by
    rw [Coco.rowGet, show dictGet [("#item", "0"), ("x", "0.0"), ("y", "0.0"),
      ("width", "10.0"), ("height", "10.0"), ("label", "1")] "y" = some "0.0"
      from by decide]
    simp [parseFloat_zero_point_zero]
  have hr : Coco.rowGet [("#item", "0"), ("x", "0.0"), ("y", "0.0"),
      ("width", "10.0"), ("height", "10.0"), ("label", "1")] ["r", "radius"] =
      none := by decide
  have hw : Coco.rowGet [("#item", "0"), ("x", "0.0"), ("y", "0.0"),
      ("width", "10.0"), ("height", "10.0"), ("label", "1")]
      ["w", "width", "dx"] = some 10 := by
    rw [Coco.rowGet, show dictGet [("#item", "0"), ("x", "0.0"), ("y", "0.0"),
      ("width", "10.0"), ("height", "10.0"), ("label", "1")] "w" = none
      from by decide]
    rw [Coco.rowGet, show dictGet [("#item", "0"), ("x", "0.0"), ("y", "0.0"),
      ("width", "10.0"), ("height", "10.0"), ("label", "1")] "width" = some "10.0"
      from by decide]
    simp [parseFloat_ten_point_zero]
  have hh : Coco.rowGet [("#item", "0"), ("x", "0.0"), ("y", "0.0"),
      ("width", "10.0"), ("height", "10.0"), ("label", "1")]
      ["h", "height", "dy"] = some 10 := by
    rw [Coco.rowGet, show dictGet [("#item", "0"), ("x", "0.0"), ("y", "0.0"),
      ("width", "10.0"), ("height", "10.0"), ("label", "1")] "h" = none
      from by decide]
    rw [Coco.rowGet, show dictGet [("#item", "0"), ("x", "0.0"), ("y", "0.0"),
      ("width", "10.0"), ("height", "10.0"), ("label", "1")] "height" = some "10.0"
      from by decide]
    simp [parseFloat_ten_point_zero]
  have hlabel : Coco.rowGet [("#item", "0"), ("x", "0.0"), ("y", "0.0"),
      ("width", "10.0"), ("height", "10.0"), ("label", "1")]
      ["label", "class", "category_id"] = some 1 := by
    rw [Coco.rowGet, show dictGet [("#item", "0"), ("x", "0.0"), ("y", "0.0"),
      ("width", "10.0"), ("height", "10.0"), ("label", "1")] "label" = some "1"
      from by decide]
    simp [parseFloat_one]
  have hcat : Coco.catOf [("#item", "0"), ("x", "0.0"), ("y", "0.0"),
      ("width", "10.0"), ("height", "10.0"), ("label", "1")] = 1 := by
    rw [Coco.catOf, hlabel]
    decide
  have hrow : Coco.parse_csv_row [("#item", "0"), ("x", "0.0"), ("y", "0.0"),
      ("width", "10.0"), ("height", "10.0"), ("label", "1")] =
      some { bbox := [0, 0, 10, 10], area := 100, category_id := 1 } := by
    simp [Coco.parse_csv_row, hx, hy, hr, hw, hh, hcat]
    norm_num
  rw [Coco.parse_csv_boxes]
  simp only [List.filterMap_cons, List.filterMap_nil, hz, hrow]

/-- C2: round-trip — starting from a wide-table CSV with the single row
`image_name=a.png, BoxesString="0 0 10 10"` (with `a.png` present in the
source images directory), running the Reorganizer and then the COCO
converter over the Reorganizer's output produces a COCO `train` document
with exactly one image entry and exactly one annotation, whose bbox is
`[0, 0, 10, 10]`. -/
theorem C2_round_trip :
    rtOut.1.length = 1 ∧
    rtOut.2.length = 1 ∧
    rtOut.2.map (fun a => a.bbox) = [[0, 0, 10, 10]] := by
  have hsets : rtFS.setsFiles "train" = some ["a"] := by
    show (Reorg.runReorg [("a.png", "0 0 10 10")] [] [] rtEnv emptyFS).setsFiles
      "train" = some ["a"]
    rw [runReorg_setsFiles]
    decide
  have hexa : (rtFS.destImages "a.png").isSome = true := by
    show ((Reorg.runReorg [("a.png", "0 0 10 10")] [] [] rtEnv
      emptyFS).destImages "a.png").isSome = true
    rw [runReorg_destImages]
    decide
  have hcsvA : rtFS.csvFiles "a" =
      some [["#item", "x", "y", "width", "height", "label"],
            ["0", "0.0", "0.0", "10.0", "10.0", "1"]] := by
    show (Reorg.runReorg [("a.png", "0 0 10 10")] [] [] rtEnv emptyFS).csvFiles "a" = _
    rw [runReorg_csvFiles]
    rw [show dictMerge (dictMerge [("a.png", "0 0 10 10")] []) [] =
      [("a.png", "0 0 10 10")] from rfl]
    rw [Reorg.csvWrite, Reorg.csvWrite, if_pos ⟨by decide, by decide⟩]
    show some (Reorg.create_csv_rows (Reorg.parse_boxes_string (some "0 0 10 10"))) = _
    rw [rt_parse_boxes, rt_csv_rows]
  have hres : Coco.resolveImage (fun n => (rtFS.destImages n).isSome) "a" =
      some "a.png" := by
    unfold Coco.resolveImage
    have hexa2 : ((fun n => (rtFS.destImages n).isSome) ("a" ++ ".png")) = true := hexa
    rw [if_pos hexa2]
    rfl
  have hout : rtOut =
      ([{ id := 1, file_name := "wheat_heads/images/a.png", width := 1024,
          height := 1024 }],
       [{ id := 1, image_id := 1, category_id := 1, bbox := [0, 0, 10, 10],
          area := 100, iscrowd := 0 }]) := by
    show Coco.collectSplit (Coco.readSplitList (rtFS.setsFiles "train"))
      (fun n => (rtFS.destImages n).isSome) (fun _ => (1024, 1024)) rtFS.csvFiles
      "wheat_heads" = _
    rw [hsets]
    rw [show Coco.readSplitList (some ["a"]) = ["a"] from by decide]
    unfold Coco.collectSplit
    rw [show sortDedup ["a"] = ["a"] from by decide]
    rw [Coco.collectGo, hres]
    dsimp only
    rw [hcsvA, rt_parse_csv, Coco.collectGo]
    dsimp only [Coco.mkAnns]
    rfl
  rw [hout]
  exact ⟨rfl, rfl, rfl⟩
